import Mathlib

/-!
Verification of the utility module `src/utils.ts` of web3-providers-connex.

The TypeScript source is shallowly embedded: JavaScript strings become Lean
`String`s (sequences of Unicode scalar values), JavaScript `undefined`/`null`
sentinels become dedicated constructors or `Option`, JavaScript exceptions are
modelled with `Except`/`Option`, and the third-party collaborators
(web3-utils hex predicates, the thor-devkit/ethers ABI codec for the single
`string` type, the provider and wallet objects used by `signTransaction`)
are modelled explicitly at the level of detail the utility module observes.

All JavaScript string primitives used by the source (`startsWith`, `slice`,
concatenation, `toLowerCase`, truthiness, `||`) are given explicit
character-list models below, so every proof is a plain list/arithmetic proof.
-/

/-! ## JavaScript string primitives -/

/-- Character-list prefix test; `chStarts p s` means the list `p` is an
initial segment of `s`.  Backs the model of `String.prototype.startsWith`. -/
def chStarts : List Char → List Char → Bool
  | [], _ => true
  | _ :: _, [] => false
  | p :: ps, c :: cs => p == c && chStarts ps cs

/-- Model of JavaScript `s.startsWith(p)`. -/
def jsStartsWith (s p : String) : Bool :=
  chStarts p.data s.data

/-- Model of JavaScript string concatenation `a + b`. -/
def jsConcat (a b : String) : String :=
  String.mk (a.data ++ b.data)

/-- Model of JavaScript `s.slice(n)` for `n ≥ 0` (drop the first `n`
characters; all sliced strings in the source are ASCII in the sliced
region, so code-unit and scalar-value indexing agree). -/
def jsSlice (s : String) (n : Nat) : String :=
  String.mk (s.data.drop n)

/-- Model of JavaScript `s.slice(0, n)` (take the first `n` characters). -/
def jsTake (s : String) (n : Nat) : String :=
  String.mk (s.data.take n)

/-- Model of JavaScript `s.toLowerCase()` (the source only lower-cases
`0x…` addresses, where per-character lowering is exact). -/
def jsToLowerCase (s : String) : String :=
  String.mk (s.data.map Char.toLower)

/-- JavaScript truthiness of a possibly-`undefined` string value. -/
def jsTruthy : Option String → Bool
  | none => false
  | some s => s != ""

/-- Model of JavaScript `a || b` on two strings. -/
def jsOrStr (a b : String) : String :=
  if a != "" then a else b

/-! ## web3-utils hex helpers (modelled third-party collaborators)

`isHexStrict` in web3-utils 1.x is `/^(-)?0x[0-9a-f]*$/i.test(hex)`;
`hexToNumber` converts such a string (optionally signed) to its numeric
value.  The module under verification calls them as black boxes. -/

/-- The numeric value of one hexadecimal digit character (either case), or
`none` for a non-hex character. -/
def hexVal? (c : Char) : Option Nat :=
  if '0' ≤ c ∧ c ≤ '9' then some (c.toNat - 48)
  else if 'a' ≤ c ∧ c ≤ 'f' then some (c.toNat - 87)
  else if 'A' ≤ c ∧ c ≤ 'F' then some (c.toNat - 55)
  else none

/-- One character of `[0-9a-f]` with the `i` flag: a hex digit of either
case. -/
def isHexDigit (c : Char) : Bool :=
  (hexVal? c).isSome

/-- `0x[0-9a-f]*` with the `i` flag applied to the whole pattern. -/
def isHexCore : List Char → Bool
  | '0' :: x :: rest => (x == 'x' || x == 'X') && rest.all isHexDigit
  | _ => false

/-- Model of web3-utils `isHexStrict`: `/^(-)?0x[0-9a-f]*$/i`. -/
def isHexStrict (s : String) : Bool :=
  match s.data with
  | '-' :: rest => isHexCore rest
  | l => isHexCore l

/-- Unsigned value of a list of hex digit characters (most significant
first); non-digits contribute 0, matching use only on strict hex input. -/
def hexDigitsVal (l : List Char) : Nat :=
  l.foldl (fun a c => a * 16 + ((hexVal? c).getD 0)) 0

/-- Model of web3-utils `hexToNumber` on a strict hex string: the signed
numeric value of the digits after the `0x` prefix. -/
def hexToNumberInt (s : String) : Int :=
  match s.data with
  | '-' :: rest => - Int.ofNat (hexDigitsVal (rest.drop 2))
  | l => Int.ofNat (hexDigitsVal (l.drop 2))

/-! ## `parseBlockNumber` -/

/-- The four JavaScript result shapes of `parseBlockNumber`: a block-id
string returned unchanged, a number, `undefined`, or `null`. -/
inductive BlockRef where
  | id (s : String)
  | num (n : Int)
  | undefined
  | null
deriving DecidableEq, Repr

/-- Embedding of `parseBlockNumber` (src/utils.ts lines 26–38). -/
def parseBlockNumber (input : String) : BlockRef :=
  if isHexStrict input ∧ input.length = 66 then BlockRef.id input
  else if isHexStrict input then BlockRef.num (hexToNumberInt input)
  else if input = "earliest" then BlockRef.num 0
  else if input = "latest" then BlockRef.undefined
  else BlockRef.null

/-! ## UTF-8 (the byte encoding used by the ABI codec for `string`)

The ethers coder underneath thor-devkit's `abi.encodeParameter` /
`abi.decodeParameter` converts between JavaScript strings and UTF-8 bytes;
decoding rejects malformed sequences (stray continuation bytes, overlong
forms, surrogates, values above U+10FFFF) by throwing. -/

/-- UTF-8 encoding of one Unicode scalar value. -/
def utf8EncodeChar (c : Char) : List Nat :=
  let n := c.toNat
  if n < 0x80 then [n]
  else if n < 0x800 then [0xC0 + n / 64, 0x80 + n % 64]
  else if n < 0x10000 then [0xE0 + n / 4096, 0x80 + n / 64 % 64, 0x80 + n % 64]
  else [0xF0 + n / 0x40000, 0x80 + n / 4096 % 64, 0x80 + n / 64 % 64, 0x80 + n % 64]

/-- UTF-8 encoding of a character list. -/
def utf8EncodeList : List Char → List Nat
  | [] => []
  | c :: cs => utf8EncodeChar c ++ utf8EncodeList cs

/-- One UTF-8 decoding step: given a lead byte and the remaining bytes,
the decoded Unicode scalar value and the bytes left over, or `none` on a
malformed sequence (invalid lead byte, truncated sequence, bad
continuation byte, overlong form, surrogate, out of range). -/
def utf8Step (b : Nat) (rest : List Nat) : Option (Nat × List Nat) :=
  if b < 0x80 then some (b, rest)
  else if b < 0xC2 then none
  else if b < 0xE0 then
    match rest with
    | b1 :: rest2 =>
      if 0x80 ≤ b1 ∧ b1 < 0xC0 then some ((b - 0xC0) * 64 + (b1 - 0x80), rest2)
      else none
    | [] => none
  else if b < 0xF0 then
    match rest with
    | b1 :: b2 :: rest3 =>
      if (0x80 ≤ b1 ∧ b1 < 0xC0) ∧ (0x80 ≤ b2 ∧ b2 < 0xC0)
          ∧ (b = 0xE0 → 0xA0 ≤ b1) ∧ (b = 0xED → b1 < 0xA0) then
        some ((b - 0xE0) * 4096 + (b1 - 0x80) * 64 + (b2 - 0x80), rest3)
      else none
    | _ => none
  else if b < 0xF5 then
    match rest with
    | b1 :: b2 :: b3 :: rest4 =>
      if (0x80 ≤ b1 ∧ b1 < 0xC0) ∧ (0x80 ≤ b2 ∧ b2 < 0xC0) ∧ (0x80 ≤ b3 ∧ b3 < 0xC0)
          ∧ (b = 0xF0 → 0x90 ≤ b1) ∧ (b = 0xF4 → b1 < 0x90) then
        some ((b - 0xF0) * 0x40000 + (b1 - 0x80) * 4096 + (b2 - 0x80) * 64 + (b3 - 0x80), rest4)
      else none
    | _ => none
  else none

/-- Fuel-indexed strict UTF-8 decoder; each step consumes at least one
byte, so fuel equal to the byte count (as used by `utf8Decode`) never
runs out and the `0` fuel branch is unreachable. -/
def utf8DecodeAux : Nat → List Nat → Option (List Char)
  | _, [] => some []
  | 0, _ :: _ => none
  | fuel + 1, b :: rest =>
    match utf8Step b rest with
    | some (n, rest2) => (utf8DecodeAux fuel rest2).map (fun cs => Char.ofNat n :: cs)
    | none => none

/-- Strict UTF-8 decoding of a byte list; `none` models a thrown decoding
error. -/
def utf8Decode (l : List Nat) : Option (List Char) :=
  utf8DecodeAux l.length l

/-! ## Hex string / byte list conversion (ethers `hexlify` / `arrayify`) -/

/-- The lowercase hex digit character for a value below 16. -/
def hexDigitChar (n : Nat) : Char :=
  if n < 10 then Char.ofNat (48 + n) else Char.ofNat (87 + n)

/-- Lowercase hex rendering of a byte list (two digits per byte). -/
def bytesToHexChars : List Nat → List Char
  | [] => []
  | b :: bs => hexDigitChar (b / 16) :: hexDigitChar (b % 16) :: bytesToHexChars bs

/-- Parse pairs of hex digit characters into bytes; `none` models the
`arrayify` error thrown on an odd-length or non-hex string. -/
def hexPairs? : List Char → Option (List Nat)
  | [] => some []
  | [_] => none
  | c1 :: c2 :: rest =>
    match hexVal? c1, hexVal? c2, hexPairs? rest with
    | some h, some l, some bs => some ((h * 16 + l) :: bs)
    | _, _, _ => none

/-- Model of ethers `arrayify` on a string: requires a `0x` prefix followed
by an even number of hex digits. -/
def hexToBytes? (s : String) : Option (List Nat) :=
  match s.data with
  | '0' :: 'x' :: rest => hexPairs? rest
  | _ => none

/-! ## 32-byte big-endian words -/

/-- `natToBE k n` is the `k`-byte big-endian representation of `n % 256^k`. -/
def natToBE : Nat → Nat → List Nat
  | 0, _ => []
  | k + 1, n => natToBE k (n / 256) ++ [n % 256]

/-- Big-endian value of a byte list. -/
def beVal (l : List Nat) : Nat :=
  l.foldl (fun a b => a * 256 + b) 0

/-! ## ABI codec for a single `string` parameter

Model of thor-devkit `abi.encodeParameter('string', s)` and
`abi.decodeParameter('string', hex)` (ethers `defaultAbiCoder` under the
hood): a dynamic value is encoded as a 32-byte offset word (value 32),
then a 32-byte byte-length word, then the UTF-8 bytes zero-padded on the
right to a multiple of 32 bytes; the result is a lowercase `0x`-prefixed
hex string.  Decoding reverses this and `none` models any thrown error. -/

/-- Model of `abi.encodeParameter('string', s)`. -/
def encodeParameterString (s : String) : String :=
  let bytes := utf8EncodeList s.data
  let L := bytes.length
  let padded := bytes ++ List.replicate ((32 - L % 32) % 32) 0
  String.mk ('0' :: 'x' :: bytesToHexChars (natToBE 32 32 ++ natToBE 32 L ++ padded))

/-- Model of `abi.decodeParameter('string', hex)`; `none` models a thrown
error (bad hex, out-of-bounds offset or length, malformed UTF-8). -/
def decodeParameterString (hexStr : String) : Option String :=
  match hexToBytes? hexStr with
  | none => none
  | some bs =>
    if 32 ≤ bs.length then
      let o := beVal (bs.take 32)
      if o + 32 ≤ bs.length then
        let L := beVal ((bs.drop o).take 32)
        if o + 32 + L ≤ bs.length then
          match utf8Decode ((bs.drop (o + 32)).take L) with
          | some cs => some (String.mk cs)
          | none => none
        else none
      else none
    else none

/-! ## Revert-reason codec (`decodeRevertReason`, `genRevertReason`) -/

/-- The `Error(string)` selector, called `errSig` in `decodeRevertReason`. -/
def errSig : String := "0x08c379a0"

/-- The `Error(string)` selector, called `errorSig` in `genRevertReason`. -/
def errorSig : String := "0x08c379a0"

/-- Embedding of `decodeRevertReason` (src/utils.ts lines 166–176).  The
`try … catch` of the source is the `none` branch of the modelled decoder:
any thrown decode error yields `""`. -/
def decodeRevertReason (data : String) : String :=
  if jsStartsWith data errSig then
    match decodeParameterString (jsConcat "0x" (jsSlice data errSig.length)) with
    | some s => s
    | none => ""
  else ""

/-- A `Connex.VM.Output` as observed by `genRevertReason`: its `data` and
`vmError` strings and its optional `revertReason`. -/
structure Output where
  data : String
  vmError : String
  revertReason : Option String := none
deriving DecidableEq, Repr

/-- Embedding of `genRevertReason` (src/utils.ts lines 60–76).  The source
mutates its argument (`output.revertReason = …`) and returns a string; the
embedding returns the mutated object together with the returned string. -/
def genRevertReason (output : Output) : Output × String :=
  let output1 := { output with revertReason := some (decodeRevertReason output.data) }
  let errMsg0 := jsOrStr (output1.revertReason.getD "") (jsOrStr output1.vmError output1.data)
  let errMsg1 := if jsStartsWith errMsg0 "0x" then errMsg0 else encodeParameterString errMsg0
  let errMsg2 :=
    if jsStartsWith errMsg1 errorSig then errMsg1 else jsConcat errorSig (jsSlice errMsg1 2)
  (output1, errMsg2)

/-! ## Filter builder (`toFilterCriteria`)

`FilterOpts` lives in `src/types.ts`, which is not part of the sources
provided; its shape is modelled from the spec's data model: an optional
`address` that is a string or a sequence of strings, and an optional
`topics` sequence whose entries are strings or sequences of strings. -/

/-- One entry of a `topics` sequence: a scalar topic or a sequence. -/
inductive TopicElem where
  | str (s : String)
  | arr (l : List String)
deriving DecidableEq, Repr

/-- The `address` argument: absent, a scalar string, or a sequence. -/
inductive AddressArg where
  | undef
  | str (s : String)
  | arr (l : List String)
deriving DecidableEq, Repr

/-- Modelled from the spec: `FilterOpts` (declared in src/types.ts, not
among the provided sources) — optional `address` (string or sequence of
strings) and optional `topics` (sequence of string-or-sequence entries). -/
structure FilterOpts where
  address : AddressArg := AddressArg.undef
  topics : Option (List TopicElem) := none
deriving DecidableEq, Repr

/-- The JavaScript value bound to `setCriteria`'s `topics` parameter:
`undefined`, the whole `topics` sequence (first branch of
`toFilterCriteria`), or one entry `topics[i]` (sequence branch). -/
inductive TopicsArg where
  | undef
  | whole (l : List TopicElem)
  | elem (t : TopicElem)
deriving DecidableEq, Repr

/-- One produced criteria object: a sparse record whose fields are set
only when the corresponding source `if` fired. -/
structure Criteria where
  address : Option String := none
  topic0 : Option TopicElem := none
  topic1 : Option TopicElem := none
  topic2 : Option TopicElem := none
  topic3 : Option TopicElem := none
deriving DecidableEq, Repr

/-- JavaScript indexing `topics[k]` for each shape `setCriteria` receives;
indexing a scalar string yields its `k`-th character as a one-character
string, indexing past the end yields `undefined`. -/
def topicsIndex (t : TopicsArg) (k : Nat) : Option TopicElem :=
  match t with
  | TopicsArg.undef => none
  | TopicsArg.whole l => l.get? k
  | TopicsArg.elem (TopicElem.str s) => (s.data.get? k).map (fun c => TopicElem.str (String.mk [c]))
  | TopicsArg.elem (TopicElem.arr l) => (l.get? k).map TopicElem.str

/-- JavaScript truthiness of an indexed topic value. -/
def topicTruthy : Option TopicElem → Bool
  | none => false
  | some (TopicElem.str s) => s != ""
  | some (TopicElem.arr _) => true

/-- JavaScript truthiness of `setCriteria`'s `topics` parameter (an array,
even empty, is truthy; a scalar string is truthy iff non-empty). -/
def topicsTruthy : TopicsArg → Bool
  | TopicsArg.undef => false
  | TopicsArg.whole _ => true
  | TopicsArg.elem (TopicElem.str s) => s != ""
  | TopicsArg.elem (TopicElem.arr _) => true

/-- Embedding of the local `setCriteria` closure (src/utils.ts lines
79–91): populate `address` and `topic0…topic3` only when truthy. -/
def setCriteria (address : Option String) (topics : TopicsArg) : Criteria :=
  let c0 : Criteria := {}
  let c1 := if jsTruthy address then { c0 with address := address } else c0
  if topicsTruthy topics then
    let c2 := if topicTruthy (topicsIndex topics 0)
      then { c1 with topic0 := topicsIndex topics 0 } else c1
    let c3 := if topicTruthy (topicsIndex topics 1)
      then { c2 with topic1 := topicsIndex topics 1 } else c2
    let c4 := if topicTruthy (topicsIndex topics 2)
      then { c3 with topic2 := topicsIndex topics 2 } else c3
    if topicTruthy (topicsIndex topics 3)
      then { c4 with topic3 := topicsIndex topics 3 } else c4
  else c1

/-- `args.address && Array.isArray(args.address)` (an array is truthy). -/
def addressIsArr : AddressArg → Bool
  | AddressArg.arr _ => true
  | _ => false

/-- `args.topics && args.topics[0] && Array.isArray(args.topics[0])`. -/
def topicsHeadIsArr : Option (List TopicElem) → Bool
  | some (TopicElem.arr _ :: _) => true
  | _ => false

/-- The `address` value passed to `setCriteria` in the scalar branch. -/
def scalarAddr : AddressArg → Option String
  | AddressArg.undef => none
  | AddressArg.str s => some s
  | AddressArg.arr _ => none

/-- The `topics` value passed to `setCriteria` in the scalar branch. -/
def wholeTopics : Option (List TopicElem) → TopicsArg
  | some l => TopicsArg.whole l
  | none => TopicsArg.undef

/-- `args.address ? (Array.isArray(args.address) ? args.address[i] :
args.address) : undefined` — the per-iteration address of the sequence
branch (an empty scalar string is falsy and resolves to `undefined`). -/
def codeAddrAt (a : AddressArg) (i : Nat) : Option String :=
  match a with
  | AddressArg.undef => none
  | AddressArg.str s => if s = "" then none else some s
  | AddressArg.arr l => l.get? i

/-- `args.topics ? args.topics[i] : undefined` — the per-iteration topics
value of the sequence branch. -/
def topicArgAt (topics : Option (List TopicElem)) (i : Nat) : TopicsArg :=
  match topics with
  | some l =>
    match l.get? i with
    | some e => TopicsArg.elem e
    | none => TopicsArg.undef
  | none => TopicsArg.undef

/-- The loop bound of the sequence branch: `len = 0`, overwritten by
`args.address.length` when `address` is truthy (for a scalar string this
is its character count), then by `args.topics.length` when `topics` is
present — so a present `topics` always wins. -/
def govLen (args : FilterOpts) : Nat :=
  match args.topics with
  | some l => l.length
  | none =>
    match args.address with
    | AddressArg.undef => 0
    | AddressArg.str s => if s = "" then 0 else s.length
    | AddressArg.arr l => l.length

/-- Embedding of `toFilterCriteria` (src/utils.ts lines 78–112). -/
def toFilterCriteria (args : FilterOpts) : List Criteria :=
  if ¬ addressIsArr args.address ∧ ¬ topicsHeadIsArr args.topics then
    [setCriteria (scalarAddr args.address) (wholeTopics args.topics)]
  else if addressIsArr args.address ∨ args.topics.isSome then
    (List.range (govLen args)).map
      (fun i => setCriteria (codeAddrAt args.address i) (topicArgAt args.topics i))
  else []

/-- The per-iteration address exactly as the claim words it: `address[i]`
for a sequence, the scalar `address` repeated otherwise. -/
def claimAddrAt (a : AddressArg) (i : Nat) : Option String :=
  match a with
  | AddressArg.undef => none
  | AddressArg.str s => some s
  | AddressArg.arr l => l.get? i

/-! ## Transaction signer (`signTransaction`)

`TxObj` and `Wallet` live in `src/types.ts` (not among the provided
sources); their shapes are modelled from the spec's data model.  The
injected provider, the randomness of the nonce, and the thor-devkit
`Transaction` codec are modelled as an explicit environment, and the two
outbound provider requests are tracked as a list of issued requests. -/

/-- Modelled from the spec: a wallet signer exposing a signing operation
over a signing-hash digest. -/
structure Signer where
  sign : String → String

/-- Modelled from the spec: `Wallet` is `{ list: sequence of signer }`. -/
structure Wallet where
  list : List Signer

/-- Modelled from the spec: `TxObj = { to?, value?, data?, gas? }`, each
field an optional hex string. -/
structure TxObj where
  «to» : Option String := none
  value : Option String := none
  data : Option String := none
  gas : Option String := none
deriving DecidableEq, Repr

/-- One clause of the constructed transaction body. -/
structure Clause where
  «to» : Option String
  value : String
  data : String
deriving DecidableEq, Repr

/-- The thor-devkit `Transaction.Body` record assembled by the source. -/
structure TransactionBody where
  chainTag : Nat
  blockRef : String
  expiration : Nat
  clauses : List Clause
  gasPriceCoef : Nat
  gas : String
  dependsOn : Option String
  nonce : String
deriving DecidableEq, Repr

/-- A provider request issued by `signTransaction`, with its parameter. -/
inductive Request where
  | estimateGas (tx : TxObj)
  | getBlockByNumber (b : String)
deriving DecidableEq, Repr

/-- The environment of one `signTransaction` call: the provider's
`chainTag` and responses, the 8 random nonce bytes in hex, and the
thor-devkit transaction codec (signing hash and signed encoding). -/
structure SignEnv where
  chainTag : Nat
  bestBlockHash : String
  estimateGasResp : TxObj → String
  nonceHex : String
  signingHash : TransactionBody → String
  encodeSigned : TransactionBody → String → String

/-- The fixed `txParams` constants of the source (src/utils.ts 121–124). -/
structure TxParams where
  expiration : Nat
  gasPriceCoef : Nat

/-- `const txParams = { expiration: 18, gasPriceCoef: 0 }`. -/
def txParams : TxParams :=
  { expiration := 18, gasPriceCoef := 0 }

/-- `const gas = ethTx.gas || await provider.request({method:
'eth_estimateGas', …})`: the resolved gas together with the provider
request this step issues (none when `ethTx.gas` is truthy). -/
def gasResolution (ethTx : TxObj) (env : SignEnv) : String × List Request :=
  if jsTruthy ethTx.gas then (ethTx.gas.getD "", [])
  else (env.estimateGasResp ethTx, [Request.estimateGas ethTx])

/-- The `Transaction.Body` record built by `signTransaction`
(src/utils.ts lines 131–158). -/
def txBodyOf (ethTx : TxObj) (env : SignEnv) : TransactionBody :=
  { chainTag := env.chainTag
    blockRef := jsTake env.bestBlockHash 18
    expiration := txParams.expiration
    clauses := [{ «to» := if jsTruthy ethTx.«to» then some (jsToLowerCase (ethTx.«to».getD "")) else none
                  value := if jsTruthy ethTx.value then ethTx.value.getD "" else "0x0"
                  data := if jsTruthy ethTx.data then ethTx.data.getD "" else "0x" }]
    gasPriceCoef := txParams.gasPriceCoef
    gas := (gasResolution ethTx env).1
    dependsOn := none
    nonce := jsConcat "0x" env.nonceHex }

/-- Embedding of `signTransaction` (src/utils.ts lines 126–164): the
returned promise's outcome (`Except.error` models a rejection, carrying
the bare rejection value) together with the provider requests issued, in
order. -/
def signTransaction (ethTx : TxObj) (wallet : Wallet) (env : SignEnv) :
    Except String String × List Request :=
  match wallet.list with
  | [] => (Except.error "Empty wallet", [])
  | signer :: _ =>
    let body := txBodyOf ethTx env
    (Except.ok (jsConcat "0x" (env.encodeSigned body (signer.sign (env.signingHash body)))),
      (gasResolution ethTx env).2 ++ [Request.getBlockByNumber "latest"])

/-! ## `getErrMsg`

`getErrMsg` takes an arbitrary JavaScript value (`err: any`); the model
universe covers the shapes that distinguish its behaviour: `undefined`,
`null`, booleans, numbers, strings, an object without a `message`
property, and an object whose `message` property is any value. -/

/-- A JavaScript value as observed by `getErrMsg`. -/
inductive JsVal where
  | undefined
  | null
  | bool (b : Bool)
  | num (n : Int)
  | str (s : String)
  | objNoMsg
  | objMsg (m : JsVal)
deriving DecidableEq, Repr

/-- JavaScript truthiness of a `JsVal` (objects are always truthy). -/
def jsTruthyVal : JsVal → Bool
  | JsVal.undefined => false
  | JsVal.null => false
  | JsVal.bool b => b
  | JsVal.num n => n != 0
  | JsVal.str s => s != ""
  | JsVal.objNoMsg => true
  | JsVal.objMsg _ => true

/-- Embedding of `getErrMsg` (src/utils.ts lines 193–202).  Reading
`err.message` on `null` or `undefined` throws a `TypeError`, modelled as
`Except.error`; on primitives and message-less objects it yields
`undefined` (falsy), so the initial `''` is returned. -/
def getErrMsg : JsVal → Except String JsVal
  | JsVal.str s => Except.ok (JsVal.str s)
  | JsVal.null => Except.error "TypeError"
  | JsVal.undefined => Except.error "TypeError"
  | JsVal.objMsg m => if jsTruthyVal m then Except.ok m else Except.ok (JsVal.str "")
  | _ => Except.ok (JsVal.str "")

/-! ## Concrete fixtures used by witnesses and counterexamples -/

/-- A concrete provider/codec environment for concrete evaluations. -/
def sampleEnv : SignEnv :=
  { chainTag := 74
    bestBlockHash := "0x000102030405060708090a0b0c0d0e0f"
    estimateGasResp := fun _ => "0x5208"
    nonceHex := "0001020304050607"
    signingHash := fun _ => "0xhash"
    encodeSigned := fun _ _ => "f86a" }

/-- A concrete one-signer wallet. -/
def sampleWallet : Wallet :=
  { list := [{ sign := fun _ => "0xsig" }] }

/-- A transaction object whose `gas` field is supplied but falsy (`""`). -/
def emptyGasTx : TxObj :=
  { gas := some "" }

/-- A transaction object with a truthy `gas` field. -/
def gasTx : TxObj :=
  { gas := some "0x5208" }

/-- Filter arguments pairing two addresses with two topics entries. -/
def pairArgs : FilterOpts :=
  { address := AddressArg.arr ["0xA", "0xB"]
    topics := some [TopicElem.arr ["t1"], TopicElem.arr ["t2"]] }

/-! ## Helper lemmas: strings, lists, arithmetic -/

theorem chStarts_append (p t : List Char) : chStarts p (p ++ t) = true := by
  induction p with
  | nil => rfl
  | cons c cs ih => simp [chStarts, ih]

theorem jsStartsWith_jsConcat (a b : String) : jsStartsWith (jsConcat a b) a = true :=
  chStarts_append a.data b.data

theorem takeAppendLen {α : Type} (l₁ l₂ : List α) (n : Nat) (h : l₁.length = n) :
    (l₁ ++ l₂).take n = l₁ := by
  subst h
  induction l₁ with
  | nil => simp
  | cons a l ih => simp [ih]

theorem dropAppendLen {α : Type} (l₁ l₂ : List α) (n : Nat) (h : l₁.length = n) :
    (l₁ ++ l₂).drop n = l₂ := by
  subst h
  induction l₁ with
  | nil => simp
  | cons a l ih => simp [ih]

theorem modMulDecomp (n b c : Nat) : n % (b * c) = b * (n / b % c) + n % b := by
  conv_lhs => rw [← Nat.div_add_mod (n % (b * c)) b]
  rw [Nat.mod_mul_right_div_self, Nat.mod_mod_of_dvd _ ⟨c, rfl⟩]

theorem beVal_append_one (l : List Nat) (b : Nat) : beVal (l ++ [b]) = beVal l * 256 + b := by
  simp [beVal, List.foldl_append]

theorem natToBE_length (k n : Nat) : (natToBE k n).length = k := by
  induction k generalizing n with
  | zero => rfl
  | succ k ih => simp [natToBE, ih]

theorem natToBE_lt (k n : Nat) : ∀ b ∈ natToBE k n, b < 256 := by
  induction k generalizing n with
  | zero => simp [natToBE]
  | succ k ih =>
    intro b hb
    rw [natToBE] at hb
    rcases List.mem_append.mp hb with h | h
    · exact ih _ b h
    · simp at h
      omega

theorem beVal_natToBE (k n : Nat) : beVal (natToBE k n) = n % 256 ^ k := by
  induction k generalizing n with
  | zero =>
    simp [natToBE, beVal]
    omega
  | succ k ih =>
    rw [natToBE, beVal_append_one, ih]
    have hc : (256 : Nat) ^ (k + 1) = 256 * 256 ^ k := by
      rw [pow_succ]
      exact Nat.mul_comm _ _
    rw [hc, modMulDecomp n 256 (256 ^ k)]
    omega

theorem hexVal?_hexDigitChar : ∀ n < 16, hexVal? (hexDigitChar n) = some n := by decide

theorem hexPairs?_bytesToHexChars (bs : List Nat) (h : ∀ b ∈ bs, b < 256) :
    hexPairs? (bytesToHexChars bs) = some bs := by
  induction bs with
  | nil => rfl
  | cons b bs ih =>
    have hb : b < 256 := h b (List.mem_cons_self _ _)
    have h1 : hexVal? (hexDigitChar (b / 16)) = some (b / 16) :=
      hexVal?_hexDigitChar _ (by omega)
    have h2 : hexVal? (hexDigitChar (b % 16)) = some (b % 16) :=
      hexVal?_hexDigitChar _ (by omega)
    have h3 : hexPairs? (bytesToHexChars bs) = some bs :=
      ih (fun x hx => h x (List.mem_cons_of_mem _ hx))
    rw [bytesToHexChars, hexPairs?, h1, h2, h3]
    have hb16 : b / 16 * 16 + b % 16 = b := by omega
    simp [hb16]

/-! ## Helper lemmas: UTF-8 roundtrip -/

theorem char_isValid (c : Char) : Nat.isValidChar c.toNat := c.valid

theorem char_lt (c : Char) : c.toNat < 0x110000 := by
  rcases char_isValid c with h | ⟨h1, h2⟩ <;> omega

theorem char_not_surrogate (c : Char) : c.toNat < 0xD800 ∨ 0xDFFF < c.toNat := by
  rcases char_isValid c with h | ⟨h1, h2⟩
  · exact Or.inl h
  · exact Or.inr h1

theorem encChar_one (c : Char) (h1 : c.toNat < 0x80) :
    utf8EncodeChar c = [c.toNat] := by
  simp only [utf8EncodeChar, if_pos h1]

theorem encChar_two (c : Char) (h1 : ¬ c.toNat < 0x80) (h2 : c.toNat < 0x800) :
    utf8EncodeChar c = [0xC0 + c.toNat / 64, 0x80 + c.toNat % 64] := by
  simp only [utf8EncodeChar, if_neg h1, if_pos h2]

theorem encChar_three (c : Char) (h1 : ¬ c.toNat < 0x80) (h2 : ¬ c.toNat < 0x800)
    (h3 : c.toNat < 0x10000) :
    utf8EncodeChar c
      = [0xE0 + c.toNat / 4096, 0x80 + c.toNat / 64 % 64, 0x80 + c.toNat % 64] := by
  simp only [utf8EncodeChar, if_neg h1, if_neg h2, if_pos h3]

theorem encChar_four (c : Char) (h1 : ¬ c.toNat < 0x80) (h2 : ¬ c.toNat < 0x800)
    (h3 : ¬ c.toNat < 0x10000) :
    utf8EncodeChar c
      = [0xF0 + c.toNat / 0x40000, 0x80 + c.toNat / 4096 % 64,
         0x80 + c.toNat / 64 % 64, 0x80 + c.toNat % 64] := by
  simp only [utf8EncodeChar, if_neg h1, if_neg h2, if_neg h3]

theorem utf8EncodeChar_lt (c : Char) : ∀ b ∈ utf8EncodeChar c, b < 256 := by
  intro b hb
  have hlt := char_lt c
  by_cases h1 : c.toNat < 0x80
  · rw [encChar_one c h1] at hb
    simp at hb
    omega
  · by_cases h2 : c.toNat < 0x800
    · rw [encChar_two c h1 h2] at hb
      simp at hb
      rcases hb with h | h <;> omega
    · by_cases h3 : c.toNat < 0x10000
      · rw [encChar_three c h1 h2 h3] at hb
        simp at hb
        rcases hb with h | h | h <;> omega
      · rw [encChar_four c h1 h2 h3] at hb
        simp at hb
        rcases hb with h | h | h | h <;> omega

theorem utf8EncodeList_lt (cs : List Char) : ∀ b ∈ utf8EncodeList cs, b < 256 := by
  induction cs with
  | nil => simp [utf8EncodeList]
  | cons c cs ih =>
    intro b hb
    rw [utf8EncodeList] at hb
    rcases List.mem_append.mp hb with h | h
    · exact utf8EncodeChar_lt c b h
    · exact ih b h

theorem utf8Step_encChar (c : Char) (rest : List Nat) :
    ∃ tail, utf8EncodeChar c ++ rest = (utf8EncodeChar c).headD 0 :: tail
      ∧ utf8Step ((utf8EncodeChar c).headD 0) tail = some (c.toNat, rest) := by
  have hlt := char_lt c
  have hsur := char_not_surrogate c
  by_cases h1 : c.toNat < 0x80
  · refine ⟨rest, by rw [encChar_one c h1]; rfl, ?_⟩
    rw [encChar_one c h1]
    simp only [List.headD]
    unfold utf8Step
    rw [if_pos h1]
  · by_cases h2 : c.toNat < 0x800
    · refine ⟨(0x80 + c.toNat % 64) :: rest, by rw [encChar_two c h1 h2]; rfl, ?_⟩
      rw [encChar_two c h1 h2]
      simp only [List.headD]
      unfold utf8Step
      rw [if_neg (by omega), if_neg (by omega), if_pos (by omega)]
      dsimp only
      rw [if_pos (by omega)]
      have harg : (0xC0 + c.toNat / 64 - 0xC0) * 64 + (0x80 + c.toNat % 64 - 0x80)
          = c.toNat := by omega
      rw [harg]
    · by_cases h3 : c.toNat < 0x10000
      · refine ⟨(0x80 + c.toNat / 64 % 64) :: (0x80 + c.toNat % 64) :: rest,
          by rw [encChar_three c h1 h2 h3]; rfl, ?_⟩
        rw [encChar_three c h1 h2 h3]
        simp only [List.headD]
        unfold utf8Step
        rw [if_neg (by omega), if_neg (by omega), if_neg (by omega), if_pos (by omega)]
        dsimp only
        rw [if_pos (by refine ⟨by omega, by omega, ?_, ?_⟩ <;> intro he <;> omega)]
        have harg : (0xE0 + c.toNat / 4096 - 0xE0) * 4096
            + (0x80 + c.toNat / 64 % 64 - 0x80) * 64 + (0x80 + c.toNat % 64 - 0x80)
            = c.toNat := by omega
        rw [harg]
      · refine ⟨(0x80 + c.toNat / 4096 % 64) :: (0x80 + c.toNat / 64 % 64)
            :: (0x80 + c.toNat % 64) :: rest,
          by rw [encChar_four c h1 h2 h3]; rfl, ?_⟩
        rw [encChar_four c h1 h2 h3]
        simp only [List.headD]
        unfold utf8Step
        rw [if_neg (by omega), if_neg (by omega), if_neg (by omega), if_neg (by omega),
          if_pos (by omega)]
        dsimp only
        rw [if_pos (by refine ⟨by omega, by omega, by omega, ?_, ?_⟩ <;> intro he <;> omega)]
        have harg : (0xF0 + c.toNat / 0x40000 - 0xF0) * 0x40000
            + (0x80 + c.toNat / 4096 % 64 - 0x80) * 4096
            + (0x80 + c.toNat / 64 % 64 - 0x80) * 64 + (0x80 + c.toNat % 64 - 0x80)
            = c.toNat := by omega
        rw [harg]

theorem utf8DecodeAux_encChar (c : Char) (rest : List Nat) (f : Nat) :
    utf8DecodeAux (f + 1) (utf8EncodeChar c ++ rest)
      = (utf8DecodeAux f rest).map (fun cs => c :: cs) := by
  obtain ⟨tail, hment, hstep⟩ := utf8Step_encChar c rest
  rw [hment, utf8DecodeAux, hstep]
  dsimp only
  rw [Char.ofNat_toNat c]

theorem utf8DecodeAux_encodeList (cs : List Char) (f : Nat) (h : cs.length ≤ f) :
    utf8DecodeAux f (utf8EncodeList cs) = some cs := by
  induction cs generalizing f with
  | nil => cases f <;> rfl
  | cons c cs ih =>
    cases f with
    | zero => simp at h
    | succ f =>
      rw [utf8EncodeList, utf8DecodeAux_encChar, ih f (by simp at h; omega)]
      rfl

theorem char_le_encChar_length (c : Char) : 1 ≤ (utf8EncodeChar c).length := by
  by_cases h1 : c.toNat < 0x80
  · rw [encChar_one c h1]
    simp
  · by_cases h2 : c.toNat < 0x800
    · rw [encChar_two c h1 h2]
      simp
    · by_cases h3 : c.toNat < 0x10000
      · rw [encChar_three c h1 h2 h3]
        simp
      · rw [encChar_four c h1 h2 h3]
        simp

theorem length_le_utf8EncodeList (cs : List Char) :
    cs.length ≤ (utf8EncodeList cs).length := by
  induction cs with
  | nil => simp [utf8EncodeList]
  | cons c cs ih =>
    rw [utf8EncodeList, List.length_append]
    have := char_le_encChar_length c
    simp only [List.length_cons]
    omega

theorem utf8Decode_encodeList (cs : List Char) :
    utf8Decode (utf8EncodeList cs) = some cs :=
  utf8DecodeAux_encodeList cs _ (length_le_utf8EncodeList cs)

/-! ## Helper lemmas: ABI `string` roundtrip -/

theorem decodeParameterString_encode (s : String)
    (h : (utf8EncodeList s.data).length < 256 ^ 32) :
    decodeParameterString (jsConcat "0x" (jsSlice (encodeParameterString s) 2)) = some s := by
  have h32pow : (32 : Nat) < 256 ^ 32 :=
    lt_of_lt_of_le (by norm_num) (Nat.le_self_pow (by norm_num) 256)
  set bytes := utf8EncodeList s.data with hbytes
  set L := bytes.length with hdefL
  set pad := List.replicate ((32 - L % 32) % 32) (0 : Nat) with hdefpad
  set allBytes := natToBE 32 32 ++ natToBE 32 L ++ (bytes ++ pad) with hdefall
  have hlt : ∀ b ∈ allBytes, b < 256 := by
    intro b hb
    rw [hdefall] at hb
    rcases List.mem_append.mp hb with hb | hb
    · rcases List.mem_append.mp hb with hb | hb
      · exact natToBE_lt 32 32 b hb
      · exact natToBE_lt 32 L b hb
    · rcases List.mem_append.mp hb with hb | hb
      · exact utf8EncodeList_lt s.data b hb
      · rw [hdefpad] at hb
        have := List.eq_of_mem_replicate hb
        omega
  have hlen : allBytes.length = 64 + (L + pad.length) := by
    rw [hdefall]
    simp [List.length_append, natToBE_length]
    omega
  have hdata : (jsConcat "0x" (jsSlice (encodeParameterString s) 2)).data
      = '0' :: 'x' :: bytesToHexChars allBytes := rfl
  have hbs : hexToBytes? (jsConcat "0x" (jsSlice (encodeParameterString s) 2))
      = some allBytes := by
    rw [hexToBytes?, hdata]
    exact hexPairs?_bytesToHexChars allBytes hlt
  have htake1 : allBytes.take 32 = natToBE 32 32 := by
    rw [hdefall, List.append_assoc]
    exact takeAppendLen _ _ 32 (natToBE_length 32 32)
  have hdrop1 : allBytes.drop 32 = natToBE 32 L ++ (bytes ++ pad) := by
    rw [hdefall, List.append_assoc]
    exact dropAppendLen _ _ 32 (natToBE_length 32 32)
  have htake2 : (allBytes.drop 32).take 32 = natToBE 32 L := by
    rw [hdrop1]
    exact takeAppendLen _ _ 32 (natToBE_length 32 L)
  have ho : beVal (allBytes.take 32) = 32 := by
    rw [htake1, beVal_natToBE]
    exact Nat.mod_eq_of_lt h32pow
  have hLv : beVal ((allBytes.drop 32).take 32) = L := by
    rw [htake2, beVal_natToBE]
    exact Nat.mod_eq_of_lt h
  have hdrop2 : allBytes.drop 64 = bytes ++ pad := by
    rw [hdefall]
    refine dropAppendLen _ _ 64 ?_
    rw [List.length_append, natToBE_length, natToBE_length]
  have htake3 : (allBytes.drop 64).take L = bytes := by
    rw [hdrop2]
    exact takeAppendLen _ _ L hdefL.symm
  have hdec : utf8Decode ((allBytes.drop (32 + 32)).take L) = some s.data := by
    have : (32 : Nat) + 32 = 64 := by norm_num
    rw [this, htake3, hbytes]
    exact utf8Decode_encodeList s.data
  rw [decodeParameterString, hbs]
  dsimp only
  rw [ho, hLv]
  rw [if_pos (by omega), if_pos (by omega), if_pos (by omega), hdec]

/-! ## Helper lemmas: `toFilterCriteria` sequence branch -/

theorem topicsHeadIsArr_isSome (t : Option (List TopicElem)) (h : topicsHeadIsArr t = true) :
    t.isSome = true := by
  cases t with
  | none => simp [topicsHeadIsArr] at h
  | some l => rfl

theorem toFilterCriteria_seq_eq (args : FilterOpts)
    (hseq : addressIsArr args.address = true ∨ topicsHeadIsArr args.topics = true) :
    toFilterCriteria args = (List.range (govLen args)).map
      (fun i => setCriteria (codeAddrAt args.address i) (topicArgAt args.topics i)) := by
  have h1 : ¬ (¬ addressIsArr args.address ∧ ¬ topicsHeadIsArr args.topics) := by
    rcases hseq with h | h <;> simp [h]
  have h2 : addressIsArr args.address = true ∨ args.topics.isSome = true := by
    rcases hseq with h | h
    · exact Or.inl h
    · exact Or.inr (topicsHeadIsArr_isSome _ h)
  rw [toFilterCriteria, if_neg h1, if_pos h2]

theorem setCriteria_emptyAddr (t : TopicsArg) :
    setCriteria (some "") t = setCriteria none t := rfl

theorem setCriteria_codeAddr_claimAddr (a : AddressArg) (i : Nat) (t : TopicsArg) :
    setCriteria (codeAddrAt a i) t = setCriteria (claimAddrAt a i) t := by
  cases a with
  | undef => rfl
  | arr l => rfl
  | str s =>
    by_cases hs : s = ""
    · subst hs
      simp only [codeAddrAt, claimAddrAt, if_pos rfl]
      exact (setCriteria_emptyAddr t).symm
    · simp only [codeAddrAt, claimAddrAt, if_neg hs]

/-! ## Claim theorems -/

/-- C1: `parseBlockNumber` maps every input to exactly one of four result
shapes: a strictly-formed hex string of exactly 66 characters is returned
unchanged; strictly-formed hex of any other length yields its numeric
value; `"earliest"` yields `0`; `"latest"` yields `undefined`; every
other string yields `null`. -/
theorem parseBlockNumber_cases (input : String) :
    (isHexStrict input = true → input.length = 66 →
      parseBlockNumber input = BlockRef.id input) ∧
    (isHexStrict input = true → input.length ≠ 66 →
      parseBlockNumber input = BlockRef.num (hexToNumberInt input)) ∧
    parseBlockNumber "earliest" = BlockRef.num 0 ∧
    parseBlockNumber "latest" = BlockRef.undefined ∧
    (isHexStrict input = false → input ≠ "earliest" → input ≠ "latest" →
      parseBlockNumber input = BlockRef.null) := by
  refine ⟨?_, ?_, by decide, by decide, ?_⟩
  · intro h1 h2
    rw [parseBlockNumber, if_pos ⟨h1, h2⟩]
  · intro h1 h2
    rw [parseBlockNumber, if_neg (fun hc => h2 hc.2), if_pos h1]
  · intro h1 h2 h3
    rw [parseBlockNumber, if_neg (by simp [h1]), if_neg (by simp [h1]), if_neg h2, if_neg h3]

/-- C1 witness: concrete instances of the hex-number and null cases. -/
theorem parseBlockNumber_cases_w :
    parseBlockNumber "0x12" = BlockRef.num (hexToNumberInt "0x12") ∧
    parseBlockNumber "zzz" = BlockRef.null :=
  ⟨(parseBlockNumber_cases "0x12").2.1 (by decide) (by decide),
   (parseBlockNumber_cases "zzz").2.2.2.2 (by decide) (by decide) (by decide)⟩

/-- C2 counterexample: the claim as stated — `decodeRevertReason`
applied to the plain concatenation of the selector and
`encodeParameter('string', s)` returns `s` — fails at `s = "a"`:
`encodeParameter` returns a `0x`-prefixed string, so the concatenation
contains an embedded `0x` that makes the hex decode throw, and the
function returns `""`, not `"a"`. -/
theorem decodeRevertReason_roundTrip_cex :
    decodeRevertReason (jsConcat errSig (encodeParameterString "a")) = ""
      ∧ ("a" : String) ≠ "" := by
  constructor
  · rfl
  · decide

/-- C2 (amended): for every string `s` (of UTF-8 byte length below
`256 ^ 32`, covering every JavaScript string), `decodeRevertReason`
applied to the concatenation of the selector `0x08c379a0` and
`encodeParameter('string', s)` with the encoder's `0x` prefix removed
returns exactly `s`. -/
theorem decodeRevertReason_roundTrip (s : String)
    (h : (utf8EncodeList s.data).length < 256 ^ 32) :
    decodeRevertReason (jsConcat errSig (jsSlice (encodeParameterString s) 2)) = s := by
  have hsl : jsSlice (jsConcat errSig (jsSlice (encodeParameterString s) 2)) errSig.length
      = jsSlice (encodeParameterString s) 2 := by
    show String.mk ((errSig.data ++ (jsSlice (encodeParameterString s) 2).data).drop
      errSig.length) = _
    rw [dropAppendLen errSig.data ((jsSlice (encodeParameterString s) 2).data)
      errSig.length rfl]
  rw [decodeRevertReason, if_pos (jsStartsWith_jsConcat errSig _), hsl,
    decodeParameterString_encode s h]

/-- C2 witness: the amended roundtrip at the concrete string `"ok"`. -/
theorem decodeRevertReason_roundTrip_w :
    decodeRevertReason (jsConcat errSig (jsSlice (encodeParameterString "ok") 2)) = "ok" :=
  decodeRevertReason_roundTrip "ok" (by decide)

/-- C3 counterexample: the claim — `getErrMsg` is total and never throws
for every input including `null` and `undefined` — fails at `null`: the
source evaluates `err.message`, which on `null` throws a `TypeError`
instead of returning a value. -/
theorem getErrMsg_null_throws : getErrMsg JsVal.null = Except.error "TypeError" := rfl

/-- C3 (amended): `getErrMsg` never throws for any input other than
`null` and `undefined`: it returns the input itself when the input is a
string, else the input's `message` field when that field is present and
truthy, else the empty string; for `null` or `undefined` it throws a
`TypeError` (reading `err.message`). -/
theorem getErrMsg_total (err : JsVal) (h1 : err ≠ JsVal.null) (h2 : err ≠ JsVal.undefined) :
    getErrMsg err = Except.ok (match err with
      | JsVal.str s => JsVal.str s
      | JsVal.objMsg m => if jsTruthyVal m then m else JsVal.str ""
      | _ => JsVal.str "") := by
  cases err with
  | null => exact absurd rfl h1
  | undefined => exact absurd rfl h2
  | bool b => rfl
  | num n => rfl
  | str s => rfl
  | objNoMsg => rfl
  | objMsg m =>
    by_cases hm : jsTruthyVal m <;> simp [getErrMsg, hm]

/-- C3 witness: the three spec examples, all without a thrown error. -/
theorem getErrMsg_total_w :
    getErrMsg (JsVal.str "boom") = Except.ok (JsVal.str "boom") ∧
    getErrMsg (JsVal.objMsg (JsVal.str "x")) = Except.ok (JsVal.str "x") ∧
    getErrMsg JsVal.objNoMsg = Except.ok (JsVal.str "") :=
  ⟨getErrMsg_total (JsVal.str "boom") (by decide) (by decide),
   getErrMsg_total (JsVal.objMsg (JsVal.str "x")) (by decide) (by decide),
   getErrMsg_total JsVal.objNoMsg (by decide) (by decide)⟩

/-- C4: in `toFilterCriteria`'s sequence branch (the `address` argument
is a sequence, or `topics[0]` is a sequence), the number of produced
criteria equals `topics.length` whenever `topics` is present and
`address.length` otherwise, and the produced list pairs, at each index
`i`, `address[i]` (or the scalar `address` repeated) with `topics[i]`. -/
theorem toFilterCriteria_seq (args : FilterOpts)
    (hseq : addressIsArr args.address = true ∨ topicsHeadIsArr args.topics = true) :
    (∀ ts, args.topics = some ts → (toFilterCriteria args).length = ts.length) ∧
    (∀ al, args.topics = none → args.address = AddressArg.arr al →
      (toFilterCriteria args).length = al.length) ∧
    toFilterCriteria args = (List.range (govLen args)).map
      (fun i => setCriteria (claimAddrAt args.address i) (topicArgAt args.topics i)) := by
  have hmain := toFilterCriteria_seq_eq args hseq
  have hfun : (fun i => setCriteria (codeAddrAt args.address i) (topicArgAt args.topics i))
      = (fun i => setCriteria (claimAddrAt args.address i) (topicArgAt args.topics i)) :=
    funext (fun i => setCriteria_codeAddr_claimAddr args.address i _)
  refine ⟨?_, ?_, ?_⟩
  · intro ts hts
    rw [hmain, List.length_map, List.length_range, govLen, hts]
  · intro al h1 h2
    rw [hmain, List.length_map, List.length_range, govLen, h1, h2]
  · rw [hmain, hfun]

/-- C4 witness: two addresses paired with two topics entries. -/
theorem toFilterCriteria_seq_w :
    (toFilterCriteria pairArgs).length = 2 :=
  (toFilterCriteria_seq pairArgs (Or.inl rfl)).1 _ rfl

/-- C5: for every wallet with an empty signer list, `signTransaction`
rejects with exactly the bare string `'Empty wallet'`, regardless of the
transaction object and the provider environment, and issues no provider
request. -/
theorem signTransaction_emptyWallet (ethTx : TxObj) (wallet : Wallet) (env : SignEnv)
    (h : wallet.list = []) :
    signTransaction ethTx wallet env = (Except.error "Empty wallet", []) := by
  rw [signTransaction, h]

/-- C5 witness: a concrete empty-wallet rejection. -/
theorem signTransaction_emptyWallet_w :
    signTransaction {} { list := [] } sampleEnv = (Except.error "Empty wallet", []) :=
  signTransaction_emptyWallet {} { list := [] } sampleEnv rfl

/-- C6: `genRevertReason` selects its message as the decoded revert
reason if non-empty, else `vmError` if non-empty, else the raw `data`;
ABI-encodes that message as a `string` when it does not start with `0x`;
prepends the `Error(string)` selector (replacing the leading `0x`) when
the message does not already start with it; and the returned string
always starts with the selector. -/
theorem genRevertReason_spec (output : Output) :
    ((genRevertReason output).2
      = (let sel := jsOrStr (decodeRevertReason output.data)
           (jsOrStr output.vmError output.data)
         let enc := if jsStartsWith sel "0x" then sel else encodeParameterString sel
         if jsStartsWith enc errorSig then enc else jsConcat errorSig (jsSlice enc 2))) ∧
    jsStartsWith (genRevertReason output).2 errorSig = true := by
  constructor
  · rfl
  · have hrfl : (genRevertReason output).2
        = (let sel := jsOrStr (decodeRevertReason output.data)
             (jsOrStr output.vmError output.data)
           let enc := if jsStartsWith sel "0x" then sel else encodeParameterString sel
           if jsStartsWith enc errorSig then enc else jsConcat errorSig (jsSlice enc 2)) := rfl
    rw [hrfl]
    set sel := jsOrStr (decodeRevertReason output.data) (jsOrStr output.vmError output.data)
    set enc := if jsStartsWith sel "0x" then sel else encodeParameterString sel
    by_cases hc : jsStartsWith enc errorSig
    · simp [hc]
    · simp only [hc, if_false, Bool.false_eq_true]
      exact jsStartsWith_jsConcat errorSig (jsSlice enc 2)

/-- C7: `decodeRevertReason` never throws: when its input does not start
with the selector `0x08c379a0`, or the ABI decode of the remaining bytes
fails (modelled by `none`), it returns the empty string; otherwise it
returns the decoded `string` parameter. -/
theorem decodeRevertReason_total (data : String) :
    (jsStartsWith data errSig = false → decodeRevertReason data = "") ∧
    (decodeParameterString (jsConcat "0x" (jsSlice data errSig.length)) = none →
      decodeRevertReason data = "") ∧
    (∀ s, jsStartsWith data errSig = true →
      decodeParameterString (jsConcat "0x" (jsSlice data errSig.length)) = some s →
      decodeRevertReason data = s) := by
  refine ⟨?_, ?_, ?_⟩
  · intro h
    rw [decodeRevertReason, if_neg (by simp [h])]
  · intro h
    by_cases hs : jsStartsWith data errSig
    · rw [decodeRevertReason, if_pos hs, h]
    · rw [decodeRevertReason, if_neg hs]
  · intro s hs hsome
    rw [decodeRevertReason, if_pos hs, hsome]

/-- C7 witness: a non-selector input decodes to the empty string. -/
theorem decodeRevertReason_total_w : decodeRevertReason "0xdead" = "" :=
  (decodeRevertReason_total "0xdead").1 (by decide)

/-- C8: `toFilterCriteria` with both `address` and `topics` absent
returns exactly one empty criteria object, and in the sequence branch a
governing length of zero (an empty sequence supplied) produces the empty
list. -/
theorem toFilterCriteria_degenerate :
    toFilterCriteria { address := AddressArg.undef, topics := none } = [({} : Criteria)] ∧
    (∀ args : FilterOpts,
      (addressIsArr args.address = true ∨ topicsHeadIsArr args.topics = true) →
      govLen args = 0 → toFilterCriteria args = []) := by
  constructor
  · rfl
  · intro args hseq hlen
    rw [toFilterCriteria_seq_eq args hseq, hlen]
    rfl

/-- C8 witness: an empty `address` sequence yields the empty list. -/
theorem toFilterCriteria_degenerate_w :
    toFilterCriteria { address := AddressArg.arr [], topics := none } = [] :=
  toFilterCriteria_degenerate.2 { address := AddressArg.arr [], topics := none }
    (Or.inl rfl) rfl

/-- C9 counterexample: the claim — whenever `gas` is supplied the
supplied value is used and no `eth_estimateGas` request is made — fails
for a supplied but falsy gas value: with `gas` present as `""` the
source's `ethTx.gas || await provider.request(…)` still issues the
`eth_estimateGas` request. -/
theorem signTransaction_gas_cex :
    emptyGasTx.gas.isSome = true ∧
    (signTransaction emptyGasTx sampleWallet sampleEnv).2
      = [Request.estimateGas emptyGasTx, Request.getBlockByNumber "latest"] :=
  ⟨rfl, rfl⟩

/-- C9 (amended): when the supplied `gas` is truthy (present and
non-empty) it is used as the body's gas and no `eth_estimateGas` request
is issued; when `gas` is absent or falsy, an `eth_estimateGas` request
carrying the original transaction object is issued and its response
provides the gas value. -/
theorem signTransaction_gas (ethTx : TxObj) (wallet : Wallet) (env : SignEnv)
    (h : wallet.list ≠ []) :
    (jsTruthy ethTx.gas = true →
      (txBodyOf ethTx env).gas = ethTx.gas.getD "" ∧
      (signTransaction ethTx wallet env).2 = [Request.getBlockByNumber "latest"]) ∧
    (jsTruthy ethTx.gas = false →
      (txBodyOf ethTx env).gas = env.estimateGasResp ethTx ∧
      (signTransaction ethTx wallet env).2
        = [Request.estimateGas ethTx, Request.getBlockByNumber "latest"]) := by
  cases wallet with
  | mk l =>
    cases l with
    | nil => exact absurd rfl h
    | cons sg tl =>
      constructor
      · intro hg
        constructor
        · simp [txBodyOf, gasResolution, hg]
        · simp [signTransaction, gasResolution, hg]
      · intro hg
        constructor
        · simp [txBodyOf, gasResolution, hg]
        · simp [signTransaction, gasResolution, hg]

/-- C9 witness: a truthy supplied gas is used and only the block request
is issued. -/
theorem signTransaction_gas_w :
    (txBodyOf gasTx sampleEnv).gas = "0x5208" ∧
    (signTransaction gasTx sampleWallet sampleEnv).2 = [Request.getBlockByNumber "latest"] :=
  (signTransaction_gas gasTx sampleWallet sampleEnv (List.cons_ne_nil _ _)).1 rfl

/-- C10: `genRevertReason` modifies only the `revertReason` field of the
caller-supplied output object, setting it to
`decodeRevertReason(output.data)`; the `data` and `vmError` fields are
unchanged for every input object. -/
theorem genRevertReason_frame (output : Output) :
    (genRevertReason output).1
      = { output with revertReason := some (decodeRevertReason output.data) } ∧
    (genRevertReason output).1.data = output.data ∧
    (genRevertReason output).1.vmError = output.vmError ∧
    (genRevertReason output).1.revertReason = some (decodeRevertReason output.data) :=
  ⟨rfl, rfl, rfl, rfl⟩
